import Mathlib

/-!
Verification of the SysSpecAPI device-record store (src/System_API/api.py).

The Flask handlers operate on a Postgres table `device_data`
(id SERIAL, mac_address VARCHAR(17) UNIQUE, username VARCHAR(255),
json_data JSONB NOT NULL, created_at TIMESTAMP, updated_at TIMESTAMP).
We embed the table as a list of records plus a surrogate-id counter, time
as a natural-number clock passed into each operation, and JSON documents
as an inductive type. The rename and replace statements stamp a single
CURRENT_TIMESTAMP, modelled as one clock parameter; save_data instead
evaluates datetime.now() twice in its parameter tuple — once for the
created_at position and once for updated_at — and at microsecond
resolution the two readings need not coincide, so the model passes them as
two separate parameters (first reading, then a second reading at least as
large). JSON numbers are modelled as integers (every number
appearing in the claims is one) and jsonb documents keep the association
order of the source list; all properties stated about documents are
key-lookup based, hence order-insensitive, except where a concrete literal
is constructed in the same order the operations produce.
-/

set_option autoImplicit false

namespace SysSpec

/-- JSON values, as parsed from a request body or stored in the jsonb column. -/
inductive Json where
  | null
  | bool (b : Bool)
  | num (n : Int)
  | str (s : String)
  | arr (elems : List Json)
  | obj (fields : List (String × Json))
deriving Repr

/-- Python truthiness of a parsed JSON value (used by `if not data`,
`if not mac_address`, `if not new_name` in api.py). -/
def Json.truthy : Json → Bool
  | .null => false
  | .bool b => b
  | .num n => n != 0
  | .str s => s != ""
  | .arr xs => !xs.isEmpty
  | .obj kvs => !kvs.isEmpty

/-- The SQL text a parameter adapts to when bound into a VARCHAR / ::text
position: only Python strings adapt cleanly; binding any other JSON value
(int, bool, list, dict, None is handled separately) into a VARCHAR column
raises a datatype error, modelled as `none`. -/
def Json.asText : Json → Option String
  | .str s => some s
  | _ => none

/-- Key lookup in a JSON object association list (first match; jsonb keys
are unique, so the first match is the only one). -/
def objLookup : List (String × Json) → String → Option Json
  | [], _ => none
  | (k2, v) :: rest, k => if k2 = k then some v else objLookup rest k

/-- Replace the value at a key, or append the pair when the key is absent
(the create-if-missing behaviour of jsonb_set at the final path step). -/
def objSet : List (String × Json) → String → Json → List (String × Json)
  | [], k, v => [(k, v)]
  | (k2, v2) :: rest, k, v =>
    if k2 = k then (k, v) :: rest else (k2, v2) :: objSet rest k v

/-- The jsonb `->` operator with a text key: returns SQL NULL (`none`) when
the left operand is not an object or the key is absent. -/
def jGetTop : Json → String → Option Json
  | .obj kvs, k => objLookup kvs k
  | _, _ => none

/-- Two-level lookup `j -> k1 -> k2`. -/
def jGet2 (j : Json) (k1 k2 : String) : Option Json :=
  (jGetTop j k1).bind fun c => jGetTop c k2

/-- PostgreSQL jsonb_set(target, path, new_value) restricted to text path
elements (the source only uses the paths `\x7buser\x7d` and
`\x7buser, provided_username\x7d`). At the final step the key is replaced or
created; a missing key at an earlier step returns the target unchanged; a
text path element applied to an array ("path element is not an integer") or
any path applied to a scalar ("cannot set path in scalar" / "cannot replace
existing key") raises an SQL error, modelled as `none`. -/
def jsonbSet : Json → List String → Json → Option Json
  | _, [], v => some v
  | .obj kvs, [k], v => some (.obj (objSet kvs k v))
  | .obj kvs, k :: k2 :: rest, v =>
    match objLookup kvs k with
    | none => some (.obj kvs)
    | some child =>
      (jsonbSet child (k2 :: rest) v).map fun c => .obj (objSet kvs k c)
  | .arr _, _ :: _, _ => none
  | _, _ :: _, _ => none

/-- One row of the device_data table. Timestamps are clock values. -/
structure Record where
  id : Nat
  mac : String
  username : Option String
  json_data : Json
  created_at : Nat
  updated_at : Nat
deriving Repr

/-- The device_data table plus the SERIAL id sequence. The list order is
insertion order; SELECT applies its own ORDER BY. -/
structure Store where
  records : List Record
  nextId : Nat
deriving Repr

/-! ## POST /api/data — save_data (create_or_update) -/

/-- Outcome of the save_data handler: 201 with the returned row, 400, or a
500 from the generic exception handler. -/
inductive SaveRes where
  | ok (r : Record)
  | badRequest
  | serverError
deriving Repr

/-- The username parameter as bound into the VARCHAR column:
absent or null becomes NULL; a string is stored as is; any other JSON value
fails SQL adaptation (`none` = statement error). -/
def usernameOf (kvs : List (String × Json)) : Option (Option String) :=
  match objLookup kvs "username" with
  | none => some none
  | some .null => some none
  | some (.str s) => some (some s)
  | some _ => none

/-- INSERT ... ON CONFLICT (mac_address) DO UPDATE. The statement binds two
separate datetime.now() evaluations: `tc` (fourth parameter, the created_at
position) and `tu` (fifth parameter, the updated_at position); the two
readings need not be equal. On conflict the existing row keeps its id and
created_at and gets username, json_data and updated_at := EXCLUDED.updated_at
(that is, `tu`); otherwise a fresh row is inserted with created_at := tc and
updated_at := tu. The serial default of the candidate row is evaluated
before conflict detection, so a sequence value is consumed on both paths.
Returns the RETURNING row and the new table. -/
def upsertRow (mac : String) (username : Option String) (jd : Json)
    (tc tu : Nat) (st : Store) : Record × Store :=
  match st.records.find? (fun r => r.mac = mac) with
  | some r =>
    let r2 : Record :=
      { r with username := username, json_data := jd, updated_at := tu }
    (r2, { records := st.records.map fun x => if x.mac = mac then r2 else x,
           nextId := st.nextId + 1 })
  | none =>
    let r : Record :=
      { id := st.nextId, mac := mac, username := username, json_data := jd,
        created_at := tc, updated_at := tu }
    (r, { records := st.records ++ [r], nextId := st.nextId + 1 })

/-- The save_data handler (POST /api/data). `body` is the parsed request
JSON; `none` means get_json raised (no/invalid body), which the blanket
except turns into a 500. `tc` and `tu` are the two datetime.now()
evaluations in the execute parameter tuple, in evaluation order. -/
def saveData (st : Store) (body : Option Json) (tc tu : Nat) :
    SaveRes × Store :=
  match body with
  | none => (.serverError, st)
  | some d =>
    if !d.truthy then (.badRequest, st)
    else
      match d with
      | .obj kvs =>
        match objLookup kvs "mac_address" with
        | none => (.badRequest, st)
        | some m =>
          if !m.truthy then (.badRequest, st)
          else
            match m.asText with
            | none => (.serverError, st)
            | some mac =>
              match usernameOf kvs with
              | none => (.serverError, st)
              | some username =>
                let jd := (objLookup kvs "json_data").getD (.obj [])
                let (r, st2) := upsertRow mac username jd tc tu st
                (.ok r, st2)
      | _ => (.serverError, st)

/-! ## GET /api/data — get_data (list_all) -/

/-- Insert a record into a list sorted by created_at descending. -/
def insertDesc (r : Record) : List Record → List Record
  | [] => [r]
  | x :: xs =>
    if x.created_at ≤ r.created_at then r :: x :: xs else x :: insertDesc r xs

/-- ORDER BY created_at DESC, as an insertion sort (any stable realisation
of the SQL ordering is an admissible model; only the ordering property and
the multiset of rows are observable). -/
def sortDesc : List Record → List Record
  | [] => []
  | x :: xs => insertDesc x (sortDesc xs)

/-- The 200 payload of get_data: `count` and `data`. -/
structure GetResp where
  count : Nat
  data : List Record
deriving Repr

/-- The get_data handler (GET /api/data): SELECT * ORDER BY created_at DESC,
count = len(results). The store is returned unchanged. -/
def getData (st : Store) : GetResp × Store :=
  let rows := sortDesc st.records
  ({ count := rows.length, data := rows }, st)

/-! ## DELETE /api/data/(mac) — delete_device -/

/-- The delete_device handler: DELETE ... RETURNING id; `true` (200) when a
row was deleted, `false` (404) when none matched. -/
def deleteDevice (st : Store) (mac : String) : Bool × Store :=
  (st.records.any (fun r => r.mac = mac),
   { st with records := st.records.filter fun r => ¬ r.mac = mac })

/-! ## PATCH /api/data/(mac)/rename — rename_device -/

/-- Outcome of the rename_device handler: 200 with the RETURNING row (the
response projects id, mac_address, username, json_data of it), 400, 404, or
500 from the blanket except. -/
inductive RenameRes where
  | ok (r : Record)
  | badRequest
  | notFound
  | serverError
deriving Repr

/-- The jsonb expression of the rename UPDATE:
jsonb_set(CASE WHEN json_data->'user' IS NULL
               THEN jsonb_set(json_data, '(user)', '()'::jsonb)
               ELSE json_data END,
          '(user, provided_username)', to_jsonb(name::text)). -/
def jsonbSetForRename (j : Json) (name : String) : Option Json :=
  let base : Option Json :=
    match jGetTop j "user" with
    | none => jsonbSet j ["user"] (.obj [])
    | some _ => some j
  base.bind fun b => jsonbSet b ["user", "provided_username"] (.str name)

/-- Effect of the rename UPDATE on one row: rows with another mac are
untouched; a matching row gets username, the jsonb_set result and a fresh
updated_at, unless the jsonb expression errors (`none`). -/
def renameRow (mac name : String) (now : Nat) (r : Record) : Option Record :=
  if r.mac = mac then
    (jsonbSetForRename r.json_data name).map fun j =>
      { r with username := some name, json_data := j, updated_at := now }
  else some r

/-- The rename UPDATE over the whole table; `none` when the statement
errors on some row (then nothing commits). -/
def runRename (mac name : String) (now : Nat) : List Record → Option (List Record)
  | [] => some []
  | r :: rs =>
    match renameRow mac name now r with
    | none => none
    | some r2 => (runRename mac name now rs).map fun rest => r2 :: rest

/-- The rename_device handler (PATCH /api/data/(mac)/rename). `body = none`
means get_json raised (500); a non-object body makes data.get raise
AttributeError (500); a missing or falsy name is a 400; a truthy non-string
name fails SQL adaptation (500); otherwise the UPDATE runs and fetchone on
RETURNING decides 200 versus 404. -/
def renameDevice (st : Store) (mac : String) (body : Option Json)
    (now : Nat) : RenameRes × Store :=
  match body with
  | none => (.serverError, st)
  | some (.obj kvs) =>
    match objLookup kvs "name" with
    | none => (.badRequest, st)
    | some v =>
      if !v.truthy then (.badRequest, st)
      else
        match v.asText with
        | none => (.serverError, st)
        | some name =>
          match runRename mac name now st.records with
          | none => (.serverError, st)
          | some newRecs =>
            match newRecs.find? (fun r => r.mac = mac) with
            | some r2 => (.ok r2, { st with records := newRecs })
            | none => (.notFound, { st with records := newRecs })
  | some _ => (.serverError, st)

/-! ## PUT /devices/(mac) — update_device (replace) -/

/-- Outcome of the update_device handler. -/
inductive UpdateRes where
  | ok (r : Record)
  | badRequest
  | notFound
  | serverError
deriving Repr

/-- Python membership test `"json_data" in xs` for a list value: string
equality against the elements (a string never equals a non-string). -/
def listHasJsonDataStr : List Json → Bool
  | [] => false
  | .str s :: rest => if s = "json_data" then true else listHasJsonDataStr rest
  | _ :: rest => listHasJsonDataStr rest

/-- Python substring test `"json_data" in s`. -/
def strHasJsonData (s : String) : Bool :=
  (s.splitOn "json_data").length ≥ 2

/-- The replace UPDATE over the table: matching rows get the new json_data,
the (possibly NULL) username and a fresh updated_at. -/
def runUpdate (mac : String) (jd : Json) (username : Option String)
    (now : Nat) (l : List Record) : List Record :=
  l.map fun r =>
    if r.mac = mac then
      { r with json_data := jd, username := username, updated_at := now }
    else r

/-- The update_device handler (PUT /devices/(mac)). The guard is
`if not data or "json_data" not in data`: a falsy body is a 400, the `in`
test on a dict checks keys, on a list elements, on a string substrings, and
raises TypeError (500) on a number or bool; a non-dict body passing the
guard raises on data["json_data"] (500). `username = data.get("username",
None)`, so an omitted username is bound as NULL. -/
def updateDevice (st : Store) (mac : String) (body : Option Json)
    (now : Nat) : UpdateRes × Store :=
  match body with
  | none => (.serverError, st)
  | some d =>
    match d with
    | .obj kvs =>
      if kvs.isEmpty then (.badRequest, st)
      else
        match objLookup kvs "json_data" with
        | none => (.badRequest, st)
        | some jd =>
          match usernameOf kvs with
          | none => (.serverError, st)
          | some username =>
            let newRecs := runUpdate mac jd username now st.records
            match newRecs.find? (fun r => r.mac = mac) with
            | some r2 => (.ok r2, { st with records := newRecs })
            | none => (.notFound, { st with records := newRecs })
    | .null => (.badRequest, st)
    | .bool b => if b then (.serverError, st) else (.badRequest, st)
    | .num n => if n = 0 then (.badRequest, st) else (.serverError, st)
    | .str s =>
      if s = "" then (.badRequest, st)
      else if strHasJsonData s then (.serverError, st) else (.badRequest, st)
    | .arr xs =>
      if xs.isEmpty then (.badRequest, st)
      else if listHasJsonDataStr xs then (.serverError, st)
      else (.badRequest, st)

/-! ## Association-list and jsonb_set lemmas -/

theorem objLookup_objSet (kvs : List (String × Json)) (k q : String) (v : Json) :
    objLookup (objSet kvs k v) q = if q = k then some v else objLookup kvs q := by
  induction kvs with
  | nil =>
    simp only [objSet, objLookup]
    rcases eq_or_ne q k with h | h
    · subst h
      simp
    · rw [if_neg (fun hh => h hh.symm), if_neg h]
  | cons p rest ih =>
    obtain ⟨pk, pv⟩ := p
    simp only [objSet]
    rcases eq_or_ne pk k with h1 | h1
    · subst h1
      rw [if_pos rfl]
      simp only [objLookup]
      rcases eq_or_ne q pk with h2 | h2
      · subst h2
        simp
      · rw [if_neg (fun hh => h2 hh.symm), if_neg h2,
          if_neg (fun hh => h2 hh.symm)]
    · rw [if_neg h1]
      simp only [objLookup]
      rcases eq_or_ne q pk with h2 | h2
      · subst h2
        rw [if_pos rfl, if_neg h1, if_pos rfl]
      · rw [if_neg (fun hh => h2 hh.symm), ih]
        rcases eq_or_ne q k with h3 | h3
        · rw [if_pos h3, if_pos h3]
        · rw [if_neg h3, if_neg h3, if_neg (fun hh => h2 hh.symm)]

theorem jsonbSetForRename_obj (kvs : List (String × Json)) (name : String) :
    jsonbSetForRename (.obj kvs) name =
      match objLookup kvs "user" with
      | none =>
        some (.obj (objSet (objSet kvs "user" (.obj [])) "user"
          (.obj [("provided_username", .str name)])))
      | some (.obj uvs) =>
        some (.obj (objSet kvs "user"
          (.obj (objSet uvs "provided_username" (.str name)))))
      | some _ => none := by
  rcases h : objLookup kvs "user" with _ | u
  · simp [jsonbSetForRename, jGetTop, h, jsonbSet, objLookup_objSet, objSet]
  · rcases u <;> simp [jsonbSetForRename, jGetTop, h, jsonbSet, objSet]

theorem jsonbSetForRename_not_obj (j : Json) (name : String)
    (h : ∀ kvs, j ≠ .obj kvs) : jsonbSetForRename j name = none := by
  rcases j <;> simp_all [jsonbSetForRename, jGetTop, jsonbSet]

/-- A successful rename expression preserves every top-level key other than
"user". -/
theorem jsonbSetForRename_top (j j2 : Json) (name : String)
    (h : jsonbSetForRename j name = some j2) :
    ∀ k, k ≠ "user" → jGetTop j2 k = jGetTop j k := by
  intro k hk
  rcases j with _ | b | n | s | xs | kvs
  case obj =>
    rw [jsonbSetForRename_obj] at h
    rcases hu : objLookup kvs "user" with _ | u
    · rw [hu] at h
      simp only [Option.some.injEq] at h
      subst h
      simp [jGetTop, objLookup_objSet, hk]
    · rw [hu] at h
      rcases u with _ | b | n | s2 | xs | uvs
      case obj =>
        simp only [Option.some.injEq] at h
        subst h
        simp [jGetTop, objLookup_objSet, hk]
      all_goals simp at h
  all_goals simp [jsonbSetForRename_not_obj] at h

/-- A successful rename expression preserves every key under "user" other
than "provided_username". -/
theorem jsonbSetForRename_user (j j2 : Json) (name : String)
    (h : jsonbSetForRename j name = some j2) :
    ∀ k, k ≠ "provided_username" → jGet2 j2 "user" k = jGet2 j "user" k := by
  intro k hk
  have hk2 : ¬ ("provided_username" = k) := fun hh => hk hh.symm
  rcases j with _ | b | n | s | xs | kvs
  case obj =>
    rw [jsonbSetForRename_obj] at h
    rcases hu : objLookup kvs "user" with _ | u
    · rw [hu] at h
      simp only [Option.some.injEq] at h
      subst h
      simp [jGet2, jGetTop, objLookup_objSet, hu, objLookup, hk, hk2]
    · rw [hu] at h
      rcases u with _ | b | n | s2 | xs | uvs
      case obj =>
        simp only [Option.some.injEq] at h
        subst h
        simp [jGet2, jGetTop, objLookup_objSet, hu, hk, hk2]
      all_goals simp at h
  all_goals simp [jsonbSetForRename_not_obj] at h

/-! ## Record-list lemmas (the UNIQUE(mac_address) constraint as Nodup) -/

theorem unique_mac (l : List Record) (r : Record) (mac : String)
    (hmem : r ∈ l) (hmac : r.mac = mac)
    (hnodup : (l.map Record.mac).Nodup) :
    ∀ x ∈ l, x.mac = mac → x = r := by
  intro x hx hxmac
  exact List.inj_on_of_nodup_map hnodup hx hmem (hxmac.trans hmac.symm)

theorem find?_mac_eq (l : List Record) (r : Record) (mac : String)
    (hmem : r ∈ l) (hmac : r.mac = mac)
    (hnodup : (l.map Record.mac).Nodup) :
    l.find? (fun x => x.mac = mac) = some r := by
  induction l with
  | nil => cases hmem
  | cons x rest ih =>
    rcases eq_or_ne x.mac mac with hx | hx
    · have hxr : x = r := unique_mac (x :: rest) r mac hmem hmac hnodup x
        (List.mem_cons_self x rest) hx
      subst hxr
      simp [List.find?, hx]
    · have hr : r ∈ rest := by
        rcases List.mem_cons.mp hmem with h | h
        · exact absurd (h ▸ hmac) hx
        · exact h
      have hnd : (∀ y ∈ rest, ¬ y.mac = x.mac) ∧ (rest.map Record.mac).Nodup := by
        simpa using hnodup
      have : rest.find? (fun x => x.mac = mac) = some r := ih hr hnd.2
      simp [List.find?, hx, this]

theorem mapIf_id (rest : List Record) (mac : String) (g : Record → Record)
    (h : ∀ y ∈ rest, y.mac ≠ mac) :
    rest.map (fun x => if x.mac = mac then g x else x) = rest := by
  induction rest with
  | nil => rfl
  | cons a t ih =>
    rw [List.map_cons, if_neg (h a (List.mem_cons_self a t)),
      ih fun y hy => h y (List.mem_cons_of_mem a hy)]

theorem filter_map_const (l : List Record) (mac : String) (r2 : Record)
    (h2 : r2.mac = mac) (hnodup : (l.map Record.mac).Nodup)
    (hex : ∃ r0 ∈ l, r0.mac = mac) :
    (l.map fun x => if x.mac = mac then r2 else x).filter
      (fun x => x.mac = mac) = [r2] := by
  induction l with
  | nil => simp at hex
  | cons x rest ih =>
    have hnd : (∀ y ∈ rest, ¬ y.mac = x.mac) ∧ (rest.map Record.mac).Nodup := by
      simpa using hnodup
    rcases eq_or_ne x.mac mac with hx | hx
    · have hrest : ∀ y ∈ rest, y.mac ≠ mac := by
        intro y hy hymac
        exact hnd.1 y hy (hymac.trans hx.symm)
      rw [List.map_cons, if_pos hx, mapIf_id rest mac (fun _ => r2) hrest,
        List.filter_cons, if_pos (by simp [h2])]
      rw [List.filter_eq_nil_iff.mpr (by intro a ha; simp [hrest a ha])]
    · rw [List.map_cons, if_neg hx, List.filter_cons, if_neg (by simp [hx])]
      apply ih hnd.2
      rcases hex with ⟨r0, hr0, hr0m⟩
      rcases List.mem_cons.mp hr0 with h | h
      · exact absurd (h ▸ hr0m) hx
      · exact ⟨r0, h, hr0m⟩

/-! ## Lemmas about the rename UPDATE -/

theorem renameRow_not_matching (mac name : String) (now : Nat) (r : Record)
    (h : r.mac ≠ mac) : renameRow mac name now r = some r := by
  simp [renameRow, h]

theorem renameRow_mac (mac name : String) (now : Nat) (r r2 : Record)
    (h : renameRow mac name now r = some r2) : r2.mac = r.mac := by
  unfold renameRow at h
  by_cases hm : r.mac = mac
  · rw [if_pos hm] at h
    rcases hj : jsonbSetForRename r.json_data name with _ | j2 <;> rw [hj] at h
    · simp at h
    · simp only [Option.map_some, Option.map_some', Option.some.injEq] at h
      subst h
      rfl
  · rw [if_neg hm] at h
    simp only [Option.some.injEq] at h
    subst h
    rfl

theorem runRename_macs (mac name : String) (now : Nat) (l l2 : List Record)
    (h : runRename mac name now l = some l2) :
    l2.map Record.mac = l.map Record.mac := by
  induction l generalizing l2 with
  | nil =>
    simp only [runRename, Option.some.injEq] at h
    subst h
    rfl
  | cons r rs ih =>
    simp only [runRename] at h
    rcases hr : renameRow mac name now r with _ | r2 <;> rw [hr] at h
    · simp at h
    · rcases hrest : runRename mac name now rs with _ | rest <;> rw [hrest] at h
      · simp at h
      · simp only [Option.map_some, Option.map_some', Option.some.injEq] at h
        subst h
        simp [List.map_cons, renameRow_mac mac name now r r2 hr, ih rest hrest]

theorem runRename_all_unmatched (mac name : String) (now : Nat) (l : List Record)
    (h : ∀ x ∈ l, x.mac ≠ mac) : runRename mac name now l = some l := by
  induction l with
  | nil => rfl
  | cons r rs ih =>
    rw [runRename, renameRow_not_matching mac name now r (h r (List.mem_cons_self r rs)),
      ih fun x hx => h x (List.mem_cons_of_mem r hx)]
    rfl

theorem runRename_isSome (mac name : String) (now : Nat) (l : List Record)
    (h : ∀ x ∈ l, x.mac = mac → (jsonbSetForRename x.json_data name).isSome) :
    (runRename mac name now l).isSome := by
  induction l with
  | nil => rfl
  | cons r rs ih =>
    have hrest := ih fun x hx => h x (List.mem_cons_of_mem r hx)
    rcases hrest2 : runRename mac name now rs with _ | rest
    · rw [hrest2] at hrest
      simp at hrest
    · by_cases hm : r.mac = mac
      · rcases Option.isSome_iff_exists.mp (h r (List.mem_cons_self r rs) hm)
          with ⟨j2, hj⟩
        simp [runRename, renameRow, hm, hj, hrest2]
      · simp [runRename, renameRow_not_matching mac name now r hm, hrest2]

theorem runRename_find (mac name : String) (now : Nat) (l l2 : List Record)
    (r : Record) (hrun : runRename mac name now l = some l2)
    (hmem : r ∈ l) (hmac : r.mac = mac)
    (hnodup : (l.map Record.mac).Nodup) :
    ∃ j2, jsonbSetForRename r.json_data name = some j2 ∧
      l2.find? (fun x => x.mac = mac) =
        some { r with username := some name, json_data := j2, updated_at := now } ∧
      ∀ x ∈ l, x.mac ≠ mac → x ∈ l2 := by
  induction l generalizing l2 with
  | nil => cases hmem
  | cons x rest ih =>
    have hnd : (∀ y ∈ rest, ¬ y.mac = x.mac) ∧ (rest.map Record.mac).Nodup := by
      simpa using hnodup
    simp only [runRename] at hrun
    rcases eq_or_ne x.mac mac with hx | hx
    · have hxr : x = r := by
        rcases List.mem_cons.mp hmem with h | h
        · exact h.symm
        · exact absurd (hmac.trans hx.symm) (hnd.1 r h)
      subst hxr
      rw [renameRow] at hrun
      rw [if_pos hx] at hrun
      rcases hj : jsonbSetForRename x.json_data name with _ | j2 <;> rw [hj] at hrun
      · simp at hrun
      · simp only [Option.map_some, Option.map_some'] at hrun
        have hrest : runRename mac name now rest = some rest :=
          runRename_all_unmatched mac name now rest
            fun y hy hymac => hnd.1 y hy (hymac.trans hx.symm)
        rw [hrest] at hrun
        simp only [Option.map_some, Option.map_some', Option.some.injEq] at hrun
        subst hrun
        refine ⟨j2, rfl, ?_, ?_⟩
        · simp [List.find?, hx]
        · intro y hy hyne
          rcases List.mem_cons.mp hy with h | h
          · exact absurd (h ▸ hx) hyne
          · exact List.mem_cons_of_mem _ h
    · rw [renameRow_not_matching mac name now x hx] at hrun
      rcases hrest : runRename mac name now rest with _ | rest2 <;> rw [hrest] at hrun
      · simp at hrun
      · simp only [Option.map_some, Option.map_some', Option.some.injEq] at hrun
        subst hrun
        have hr : r ∈ rest := by
          rcases List.mem_cons.mp hmem with h | h
          · exact absurd ((h ▸ hmac).symm) (Ne.symm hx)
          · exact h
        obtain ⟨j2, hj, hfind, hframe⟩ := ih rest2 hrest hr hnd.2
        refine ⟨j2, hj, ?_, ?_⟩
        · simp [List.find?, hx, hfind]
        · intro y hy hyne
          rcases List.mem_cons.mp hy with h | h
          · exact h ▸ List.mem_cons_self x rest2
          · exact List.mem_cons_of_mem _ (hframe y h hyne)

/-! ## Lemmas about row-wise UPDATE maps and the upsert -/

theorem find?_mapIf (l : List Record) (mac : String) (g : Record → Record)
    (hg : ∀ x, (g x).mac = x.mac) (r : Record) (hmem : r ∈ l)
    (hmac : r.mac = mac) (hnodup : (l.map Record.mac).Nodup) :
    (l.map fun x => if x.mac = mac then g x else x).find?
      (fun x => x.mac = mac) = some (g r) := by
  induction l with
  | nil => cases hmem
  | cons x rest ih =>
    have hnd : (∀ y ∈ rest, ¬ y.mac = x.mac) ∧ (rest.map Record.mac).Nodup := by
      simpa using hnodup
    rcases eq_or_ne x.mac mac with hx | hx
    · have hxr : x = r := by
        rcases List.mem_cons.mp hmem with h | h
        · exact h.symm
        · exact absurd (hmac.trans hx.symm) (hnd.1 r h)
      subst hxr
      simp [List.find?, if_pos hx, hg x, hx]
    · have hr : r ∈ rest := by
        rcases List.mem_cons.mp hmem with h | h
        · exact absurd (h ▸ hmac) hx
        · exact h
      rw [List.map_cons, if_neg hx, List.find?_cons_of_neg _ (by simp [hx])]
      exact ih hr hnd.2

theorem filter_mapIf (l : List Record) (mac : String) (g : Record → Record)
    (hg : ∀ x, (g x).mac = x.mac) (r : Record) (hmem : r ∈ l)
    (hmac : r.mac = mac) (hnodup : (l.map Record.mac).Nodup) :
    (l.map fun x => if x.mac = mac then g x else x).filter
      (fun x => x.mac = mac) = [g r] := by
  induction l with
  | nil => cases hmem
  | cons x rest ih =>
    have hnd : (∀ y ∈ rest, ¬ y.mac = x.mac) ∧ (rest.map Record.mac).Nodup := by
      simpa using hnodup
    rcases eq_or_ne x.mac mac with hx | hx
    · have hxr : x = r := by
        rcases List.mem_cons.mp hmem with h | h
        · exact h.symm
        · exact absurd (hmac.trans hx.symm) (hnd.1 r h)
      subst hxr
      have hrest : ∀ y ∈ rest, y.mac ≠ mac :=
        fun y hy hymac => hnd.1 y hy (hymac.trans hx.symm)
      rw [List.map_cons, if_pos hx, mapIf_id rest mac g hrest,
        List.filter_cons, if_pos (by simp [hg x, hx])]
      rw [List.filter_eq_nil_iff.mpr (by intro a ha; simp [hrest a ha])]
    · have hr : r ∈ rest := by
        rcases List.mem_cons.mp hmem with h | h
        · exact absurd (h ▸ hmac) hx
        · exact h
      rw [List.map_cons, if_neg hx, List.filter_cons, if_neg (by simp [hx])]
      exact ih hr hnd.2

theorem mapIf_mem (l : List Record) (mac : String) (g : Record → Record)
    (x : Record) (hx : x ∈ l) (hne : x.mac ≠ mac) :
    x ∈ l.map fun y => if y.mac = mac then g y else y := by
  have : x = if x.mac = mac then g x else x := by rw [if_neg hne]
  exact this ▸ List.mem_map_of_mem _ hx

theorem mapIf_macs (l : List Record) (mac : String) (g : Record → Record)
    (hg : ∀ x, (g x).mac = x.mac) :
    (l.map fun x => if x.mac = mac then g x else x).map Record.mac =
      l.map Record.mac := by
  rw [List.map_map]
  apply List.map_congr_left
  intro a _
  by_cases h : a.mac = mac <;> simp [Function.comp, h, hg a]

theorem runUpdate_eq_mapIf (mac : String) (jd : Json) (username : Option String)
    (now : Nat) (l : List Record) :
    runUpdate mac jd username now l =
      l.map fun x => if x.mac = mac then
        { x with json_data := jd, username := username, updated_at := now }
      else x := rfl

theorem upsertRow_absent (mac : String) (u : Option String) (jd : Json)
    (tc tu : Nat) (st : Store) (habs : ∀ x ∈ st.records, x.mac ≠ mac) :
    upsertRow mac u jd tc tu st =
      ({ id := st.nextId, mac := mac, username := u, json_data := jd,
         created_at := tc, updated_at := tu },
       { records := st.records ++
           [{ id := st.nextId, mac := mac, username := u, json_data := jd,
              created_at := tc, updated_at := tu }],
         nextId := st.nextId + 1 }) := by
  have hnone : st.records.find? (fun x => x.mac = mac) = none :=
    List.find?_eq_none.mpr (by intro x hx; simp [habs x hx])
  simp [upsertRow, hnone]

theorem upsertRow_present (mac : String) (u : Option String) (jd : Json)
    (tc tu : Nat) (st : Store) (r : Record) (hmem : r ∈ st.records)
    (hmac : r.mac = mac) (hnodup : (st.records.map Record.mac).Nodup) :
    upsertRow mac u jd tc tu st =
      ({ r with username := u, json_data := jd, updated_at := tu },
       { records := st.records.map fun x =>
           if x.mac = mac then
             { r with username := u, json_data := jd, updated_at := tu }
           else x,
         nextId := st.nextId + 1 }) := by
  simp [upsertRow, find?_mac_eq st.records r mac hmem hmac hnodup]

theorem upsertRow_ret (mac : String) (u : Option String) (jd : Json)
    (tc tu : Nat) (st : Store) :
    (upsertRow mac u jd tc tu st).1.mac = mac ∧
    (upsertRow mac u jd tc tu st).1.username = u ∧
    (upsertRow mac u jd tc tu st).1.json_data = jd ∧
    (upsertRow mac u jd tc tu st).1.updated_at = tu := by
  rcases hf : st.records.find? (fun x => x.mac = mac) with _ | r
  · simp [upsertRow, hf]
  · have : r.mac = mac := by simpa using List.find?_some hf
    simp [upsertRow, hf, this]

theorem upsertRow_filter (mac : String) (u : Option String) (jd : Json)
    (tc tu : Nat) (st : Store) (hnodup : (st.records.map Record.mac).Nodup) :
    ((upsertRow mac u jd tc tu st).2).records.filter (fun x => x.mac = mac) =
      [(upsertRow mac u jd tc tu st).1] := by
  rcases hf : st.records.find? (fun x => x.mac = mac) with _ | r
  · have habs : ∀ x ∈ st.records, ¬ x.mac = mac := by
      intro x hx
      have := List.find?_eq_none.mp hf x hx
      simpa using this
    simp only [upsertRow, hf, List.filter_append]
    rw [List.filter_eq_nil_iff.mpr (by intro a ha; simp [habs a ha])]
    simp
  · have hrmac : r.mac = mac := by simpa using List.find?_some hf
    have hrmem : r ∈ st.records := List.mem_of_find?_eq_some hf
    simp only [upsertRow, hf]
    exact filter_map_const st.records mac _ (by simp [hrmac]) hnodup
      ⟨r, hrmem, hrmac⟩

theorem upsertRow_macs_nodup (mac : String) (u : Option String) (jd : Json)
    (tc tu : Nat) (st : Store) (hnodup : (st.records.map Record.mac).Nodup) :
    (((upsertRow mac u jd tc tu st).2).records.map Record.mac).Nodup := by
  rcases hf : st.records.find? (fun x => x.mac = mac) with _ | r
  · have habs : ∀ x ∈ st.records, ¬ x.mac = mac := by
      intro x hx
      have := List.find?_eq_none.mp hf x hx
      simpa using this
    simp only [upsertRow, hf, List.map_append]
    rw [List.nodup_append]
    refine ⟨hnodup, by simp, ?_⟩
    intro a ha
    simp only [List.map_cons, List.map_nil, List.mem_singleton]
    rcases List.mem_map.mp ha with ⟨x, hx, hxa⟩
    intro hamem
    exact habs x hx (by rw [← hxa] at hamem; exact hamem)
  · have hrmac : r.mac = mac := by simpa using List.find?_some hf
    simp only [upsertRow, hf]
    have : ((st.records.map fun x => if x.mac = mac then
        { r with username := u, json_data := jd, updated_at := tu }
        else x).map Record.mac) = st.records.map Record.mac := by
      rw [List.map_map]
      apply List.map_congr_left
      intro a _
      by_cases h : a.mac = mac <;> simp [Function.comp, h, hrmac]
    rw [this]
    exact hnodup

/-! ## Reduction of the save_data handler on well-formed bodies -/

theorem saveData_no_username (st : Store) (mac : String) (jd : Json)
    (tc tu : Nat) (hmac : mac ≠ "") :
    saveData st (some (.obj [("mac_address", .str mac), ("json_data", jd)]))
        tc tu =
      (.ok (upsertRow mac none jd tc tu st).1,
       (upsertRow mac none jd tc tu st).2) := by
  rcases hup : upsertRow mac none jd tc tu st with ⟨r, st2⟩
  simp [saveData, Json.truthy, objLookup, usernameOf, Json.asText, hmac, hup]

theorem saveData_with_username (st : Store) (mac u : String) (jd : Json)
    (tc tu : Nat) (hmac : mac ≠ "") :
    saveData st (some (.obj [("mac_address", .str mac), ("username", .str u),
        ("json_data", jd)])) tc tu =
      (.ok (upsertRow mac (some u) jd tc tu st).1,
       (upsertRow mac (some u) jd tc tu st).2) := by
  rcases hup : upsertRow mac (some u) jd tc tu st with ⟨r, st2⟩
  simp [saveData, Json.truthy, objLookup, usernameOf, Json.asText, hmac, hup]

/-! ## Ordering lemmas for get_data -/

theorem insertDesc_perm (r : Record) (l : List Record) :
    List.Perm (insertDesc r l) (r :: l) := by
  induction l with
  | nil => exact List.Perm.refl _
  | cons x xs ih =>
    simp only [insertDesc]
    by_cases h : x.created_at ≤ r.created_at
    · rw [if_pos h]
    · rw [if_neg h]
      exact (ih.cons x).trans (List.Perm.swap r x xs)

theorem sortDesc_perm (l : List Record) : List.Perm (sortDesc l) l := by
  induction l with
  | nil => exact List.Perm.refl _
  | cons x xs ih =>
    exact (insertDesc_perm x (sortDesc xs)).trans (ih.cons x)

theorem mem_insertDesc (r y : Record) (l : List Record) :
    y ∈ insertDesc r l ↔ y = r ∨ y ∈ l := by
  rw [(insertDesc_perm r l).mem_iff, List.mem_cons]

theorem insertDesc_sorted (r : Record) (l : List Record)
    (h : l.Sorted fun a b => b.created_at ≤ a.created_at) :
    (insertDesc r l).Sorted fun a b => b.created_at ≤ a.created_at := by
  induction l with
  | nil => simp [insertDesc, List.Sorted]
  | cons x xs ih =>
    have hx := List.sorted_cons.mp h
    simp only [insertDesc]
    by_cases hcmp : x.created_at ≤ r.created_at
    · rw [if_pos hcmp]
      refine List.sorted_cons.mpr ⟨?_, h⟩
      intro y hy
      rcases List.mem_cons.mp hy with hh | hh
      · exact hh ▸ hcmp
      · exact Nat.le_trans (hx.1 y hh) hcmp
    · rw [if_neg hcmp]
      refine List.sorted_cons.mpr ⟨?_, ih hx.2⟩
      intro y hy
      rcases (mem_insertDesc r y xs).mp hy with hh | hh
      · exact hh ▸ Nat.le_of_lt (Nat.lt_of_not_le hcmp)
      · exact hx.1 y hh

theorem sortDesc_sorted (l : List Record) :
    (sortDesc l).Sorted fun a b => b.created_at ≤ a.created_at := by
  induction l with
  | nil => simp [sortDesc, List.Sorted]
  | cons x xs ih => exact insertDesc_sorted x (sortDesc xs) ih

/-! ## Claim theorems -/

/-- C9: list_all (GET /api/data) returns every stored record, ordered by
created_at descending (newest first), and performs no modification of any
stored record: the response rows are a permutation of the table, pairwise
ordered by descending created_at, and the store is returned unchanged. -/
theorem c9_list_all_ordered_complete (st : Store) :
    List.Perm (getData st).1.data st.records ∧
    ((getData st).1.data.Sorted fun a b => b.created_at ≤ a.created_at) ∧
    (getData st).2 = st :=
  ⟨sortDesc_perm st.records, sortDesc_sorted st.records, rfl⟩

/-- C10: in every successful response of list_all (GET /api/data), the count
field equals the number of elements in the data array. -/
theorem c10_count_matches_data (st : Store) :
    (getData st).1.count = (getData st).1.data.length := rfl

/-- C6: delete (DELETE /api/data/(mac)) returns true if and only if a record
with the given MAC address existed; the record is then absent from every
subsequent list_all; on false (mapped to 404) the stored state is entirely
unchanged. -/
theorem c6_delete_iff_existed (st : Store) (mac : String) :
    ((deleteDevice st mac).1 = true ↔ ∃ r ∈ st.records, r.mac = mac) ∧
    (∀ x ∈ (getData (deleteDevice st mac).2).1.data, x.mac ≠ mac) ∧
    ((deleteDevice st mac).1 = false → (deleteDevice st mac).2 = st) := by
  refine ⟨?_, ?_, ?_⟩
  · simp [deleteDevice]
  · intro x hx
    have hx2 : x ∈ (deleteDevice st mac).2.records :=
      (sortDesc_perm _).subset hx
    simp only [deleteDevice] at hx2
    have := List.of_mem_filter hx2
    simpa using this
  · intro h
    have hall : ∀ x ∈ st.records, ¬ x.mac = mac := by
      have h2 : st.records.any (fun r => decide (r.mac = mac)) = false := h
      intro x hx
      simpa using List.any_eq_false.mp h2 x hx
    have hfilter : st.records.filter (fun r => ¬ r.mac = mac) = st.records :=
      List.filter_eq_self.mpr (by intro a ha; simp [hall a ha])
    cases st
    simp only [deleteDevice] at hfilter ⊢
    rw [hfilter]

/-- C8 counterexample: a rename request carrying no JSON body at all is
answered with a 500 (request.get_json raises and the blanket except maps it
to a server error), not the 400 the claim requires. -/
theorem c8_counterexample :
    renameDevice { records := [], nextId := 1 } "aa:bb:cc:dd:ee:ff" none 0 =
      (RenameRes.serverError, { records := [], nextId := 1 }) ∧
    RenameRes.serverError ≠ RenameRes.badRequest :=
  ⟨rfl, fun h => RenameRes.noConfusion h⟩

/-- C8 (amended): a rename request whose body is a JSON object without the
name field fails with 400 and performs no state change; a request with no
parseable JSON body instead falls into the generic handler and yields 500,
also with no state change. -/
theorem c8_missing_name_400 (st : Store) (mac : String) (now : Nat)
    (kvs : List (String × Json)) (hname : objLookup kvs "name" = none) :
    renameDevice st mac (some (.obj kvs)) now = (.badRequest, st) ∧
    renameDevice st mac none now = (.serverError, st) := by
  constructor
  · simp [renameDevice, hname]
  · rfl

theorem c8_missing_name_400_witness :
    objLookup [] "name" = none ∧
    (renameDevice { records := [], nextId := 1 } "aa" (some (.obj [])) 0 =
        (.badRequest, { records := [], nextId := 1 }) ∧
      renameDevice { records := [], nextId := 1 } "aa" none 0 =
        (.serverError, { records := [], nextId := 1 })) :=
  ⟨rfl, c8_missing_name_400 { records := [], nextId := 1 } "aa" 0 [] rfl⟩

/-- The concrete record used to exhibit the C2 failure: username "bob". -/
def c2rec : Record :=
  { id := 1, mac := "aa:aa", username := some "bob",
    json_data := .obj [("a", .num 1)], created_at := 0, updated_at := 0 }

/-- A one-row table holding `c2rec`. -/
def c2store : Store := { records := [c2rec], nextId := 2 }

/-- C2 counterexample: a record whose username is "bob", replaced via
PUT /devices/(mac) with a body that omits username, ends with username NULL,
not the prior value "bob": the claim that username is left unchanged fails. -/
theorem c2_counterexample :
    (updateDevice c2store "aa:aa"
        (some (.obj [("json_data", .obj [("a", .num 2)])])) 7).1 =
      UpdateRes.ok
        { id := 1, mac := "aa:aa", username := none,
          json_data := .obj [("a", .num 2)], created_at := 0,
          updated_at := 7 } ∧
    c2rec.username = some "bob" ∧ (some "bob" : Option String) ≠ none :=
  ⟨rfl, rfl, by simp⟩

/-- C2 (amended): replace (PUT /devices/(mac)) with the username field
omitted overwrites json_data with the new payload and sets the username
column to NULL (data.get("username", None) binds NULL); the key keeps
exactly one record and unrelated records are untouched. -/
theorem c2_replace_nulls_username (st : Store) (mac : String) (jd : Json)
    (now : Nat) (r : Record) (hmem : r ∈ st.records) (hmac : r.mac = mac)
    (hnodup : (st.records.map Record.mac).Nodup) :
    ∃ st2, updateDevice st mac (some (.obj [("json_data", jd)])) now =
        (.ok { r with json_data := jd, username := none, updated_at := now },
         st2) ∧
      st2.records.filter (fun x => x.mac = mac) =
        [{ r with json_data := jd, username := none, updated_at := now }] ∧
      (∀ x ∈ st.records, x.mac ≠ mac → x ∈ st2.records) := by
  have hfind := find?_mapIf st.records mac
    (fun x => { x with json_data := jd, username := none, updated_at := now })
    (fun x => rfl) r hmem hmac hnodup
  have hfilter := filter_mapIf st.records mac
    (fun x => { x with json_data := jd, username := none, updated_at := now })
    (fun x => rfl) r hmem hmac hnodup
  refine ⟨{ st with records := runUpdate mac jd none now st.records }, ?_, ?_, ?_⟩
  · simp [updateDevice, objLookup, usernameOf, runUpdate_eq_mapIf, hfind]
  · rw [runUpdate_eq_mapIf]
    exact hfilter
  · intro x hx hxne
    rw [runUpdate_eq_mapIf]
    exact mapIf_mem st.records mac _ x hx hxne

theorem c2_replace_nulls_username_witness :
    c2rec ∈ c2store.records ∧ c2rec.mac = "aa:aa" ∧
    (c2store.records.map Record.mac).Nodup ∧
    ∃ st2, updateDevice c2store "aa:aa" (some (.obj [("json_data", .num 3)])) 4 =
        (.ok { c2rec with json_data := .num 3, username := none, updated_at := 4 },
         st2) ∧
      st2.records.filter (fun x => x.mac = "aa:aa") =
        [{ c2rec with json_data := .num 3, username := none, updated_at := 4 }] ∧
      (∀ x ∈ c2store.records, x.mac ≠ "aa:aa" → x ∈ st2.records) :=
  ⟨List.mem_cons_self _ _, rfl, by simp [c2store],
    c2_replace_nulls_username c2store "aa:aa" (.num 3) 4 c2rec
      (List.mem_cons_self _ _) rfl (by simp [c2store])⟩

theorem getData_filter_append (l : List Record) (r : Record) (nid : Nat)
    (mac : String) (habs : ∀ x ∈ l, x.mac ≠ mac) (hr : r.mac = mac) :
    (getData { records := l ++ [r], nextId := nid }).1.data.filter
      (fun x => x.mac = mac) = [r] := by
  have h1 : (l ++ [r]).filter (fun x => x.mac = mac) = [r] := by
    rw [List.filter_append,
      List.filter_eq_nil_iff.mpr (by intro a ha; simp [habs a ha])]
    simp [hr]
  have hp := (sortDesc_perm (l ++ [r])).filter (fun x => decide (x.mac = mac))
  rw [h1] at hp
  exact hp.eq_singleton

/-- C3: calling create_or_update (POST /api/data) twice with the same MAC
address and different json_data payloads leaves exactly one record for that
key, whose json_data equals the second payload and whose updated_at (the
second call's updated_at clock reading) is strictly greater than the
updated_at produced by the first call, the clock having advanced between
the calls. Each call carries its own pair of datetime.now() readings. -/
theorem c3_upsert_twice_last_wins (st : Store) (mac : String) (jd1 jd2 : Json)
    (tc1 tu1 tc2 tu2 : Nat) (hnodup : (st.records.map Record.mac).Nodup)
    (hne : mac ≠ "") (ht : tu1 < tu2) :
    ∃ r1 st1 r2 st2,
      saveData st (some (.obj [("mac_address", .str mac), ("json_data", jd1)]))
        tc1 tu1 = (.ok r1, st1) ∧
      saveData st1 (some (.obj [("mac_address", .str mac), ("json_data", jd2)]))
        tc2 tu2 = (.ok r2, st2) ∧
      st2.records.filter (fun x => x.mac = mac) = [r2] ∧
      r2.json_data = jd2 ∧ r1.updated_at = tu1 ∧ r2.updated_at = tu2 ∧
      r1.updated_at < r2.updated_at := by
  refine ⟨(upsertRow mac none jd1 tc1 tu1 st).1,
    (upsertRow mac none jd1 tc1 tu1 st).2,
    (upsertRow mac none jd2 tc2 tu2 (upsertRow mac none jd1 tc1 tu1 st).2).1,
    (upsertRow mac none jd2 tc2 tu2 (upsertRow mac none jd1 tc1 tu1 st).2).2,
    saveData_no_username st mac jd1 tc1 tu1 hne,
    saveData_no_username _ mac jd2 tc2 tu2 hne, ?_, ?_, ?_, ?_, ?_⟩
  · exact upsertRow_filter mac none jd2 tc2 tu2 _
      (upsertRow_macs_nodup mac none jd1 tc1 tu1 st hnodup)
  · exact (upsertRow_ret mac none jd2 tc2 tu2 _).2.2.1
  · exact (upsertRow_ret mac none jd1 tc1 tu1 st).2.2.2
  · exact (upsertRow_ret mac none jd2 tc2 tu2 _).2.2.2
  · rw [(upsertRow_ret mac none jd1 tc1 tu1 st).2.2.2,
      (upsertRow_ret mac none jd2 tc2 tu2 _).2.2.2]
    exact ht

theorem c3_upsert_twice_last_wins_witness :
    (((⟨[], 1⟩ : Store).records.map Record.mac).Nodup) ∧ "aa" ≠ "" ∧ 4 < 8 ∧
    (∃ r1 st1 r2 st2,
      saveData ⟨[], 1⟩
        (some (.obj [("mac_address", .str "aa"), ("json_data", .num 1)])) 3 4 =
        (.ok r1, st1) ∧
      saveData st1
        (some (.obj [("mac_address", .str "aa"), ("json_data", .num 2)])) 7 8 =
        (.ok r2, st2) ∧
      st2.records.filter (fun x => x.mac = "aa") = [r2] ∧
      r2.json_data = .num 2 ∧ r1.updated_at = 4 ∧ r2.updated_at = 8 ∧
      r1.updated_at < r2.updated_at) :=
  ⟨by simp, by simp, by decide,
    c3_upsert_twice_last_wins ⟨[], 1⟩ "aa" (.num 1) (.num 2) 3 4 7 8 (by simp)
      (by simp) (by decide)⟩

/-- C4 counterexample: a first insert binds created_at and updated_at to two
separate datetime.now() evaluations; when the second reading is later (here
3 then 4, as microsecond-resolution clocks permit), the freshly created
record has created_at different from updated_at, falsifying the claimed
created_at = updated_at. -/
theorem c4_counterexample :
    ∃ r1 st1,
      saveData { records := [], nextId := 1 }
        (some (.obj [("mac_address", .str "aa"), ("username", .str "bob"),
          ("json_data", .num 4)])) 3 4 = (.ok r1, st1) ∧
      r1.mac = "aa" ∧ r1.created_at = 3 ∧ r1.updated_at = 4 ∧
      r1.created_at ≠ r1.updated_at := by
  refine ⟨_, _, rfl, rfl, rfl, rfl, by decide⟩

/-- C4 (amended): for a MAC address not previously stored, one
create_or_update (POST /api/data) followed by list_all (GET /api/data)
yields exactly one record with the submitted mac_address, username and
json_data; its created_at is the first datetime.now() reading and its
updated_at the second, so created_at ≤ updated_at always holds, with
equality exactly when the two readings coincide — which the code does not
guarantee. -/
theorem c4_create_then_list (st : Store) (mac u : String) (jd : Json)
    (tc tu : Nat) (habs : ∀ x ∈ st.records, x.mac ≠ mac) (hne : mac ≠ "")
    (hct : tc ≤ tu) :
    ∃ r1 st1,
      saveData st (some (.obj [("mac_address", .str mac), ("username", .str u),
        ("json_data", jd)])) tc tu = (.ok r1, st1) ∧
      r1.mac = mac ∧ r1.username = some u ∧ r1.json_data = jd ∧
      r1.created_at = tc ∧ r1.updated_at = tu ∧
      r1.created_at ≤ r1.updated_at ∧
      (tc = tu → r1.created_at = r1.updated_at) ∧
      (getData st1).1.data.filter (fun x => x.mac = mac) = [r1] := by
  have hup := upsertRow_absent mac (some u) jd tc tu st habs
  refine
    ⟨{ id := st.nextId, mac := mac, username := some u, json_data := jd,
       created_at := tc, updated_at := tu },
     { records := st.records ++
         [{ id := st.nextId, mac := mac, username := some u, json_data := jd,
            created_at := tc, updated_at := tu }],
       nextId := st.nextId + 1 },
     ?_, rfl, rfl, rfl, rfl, rfl, hct, fun h => h, ?_⟩
  · rw [saveData_with_username st mac u jd tc tu hne, hup]
  · exact getData_filter_append st.records _ _ mac habs rfl

theorem c4_create_then_list_witness :
    (∀ x ∈ (⟨[], 1⟩ : Store).records, Record.mac x ≠ "aa") ∧ "aa" ≠ "" ∧
    (6 : Nat) ≤ 7 ∧
    (∃ r1 st1,
      saveData ⟨[], 1⟩ (some (.obj [("mac_address", .str "aa"),
        ("username", .str "bob"), ("json_data", .num 4)])) 6 7 =
        (.ok r1, st1) ∧
      r1.mac = "aa" ∧ r1.username = some "bob" ∧ r1.json_data = .num 4 ∧
      r1.created_at = 6 ∧ r1.updated_at = 7 ∧
      r1.created_at ≤ r1.updated_at ∧
      ((6 : Nat) = 7 → r1.created_at = r1.updated_at) ∧
      (getData st1).1.data.filter (fun x => x.mac = "aa") = [r1]) :=
  ⟨by simp, by simp, by decide,
    c4_create_then_list ⟨[], 1⟩ "aa" "bob" (.num 4) 6 7 (by simp) (by simp)
      (by decide)⟩

/-- C5: an upsert (POST /api/data) on an existing record changes only
username, json_data and updated_at: the record's id and created_at are
identical before and after, the key keeps exactly one record, and unrelated
records are untouched. (The serial sequence advances even on the conflict
path, as the candidate row's default is evaluated before conflict
detection, but no stored row's id changes.) -/
theorem c5_upsert_preserves_id_created (st : Store) (mac u : String)
    (jd : Json) (tc tu : Nat) (r : Record) (hmem : r ∈ st.records)
    (hmac : r.mac = mac) (hnodup : (st.records.map Record.mac).Nodup)
    (hne : mac ≠ "") :
    ∃ r2 st2,
      saveData st (some (.obj [("mac_address", .str mac), ("username", .str u),
        ("json_data", jd)])) tc tu = (.ok r2, st2) ∧
      r2.id = r.id ∧ r2.created_at = r.created_at ∧ r2.mac = r.mac ∧
      r2.username = some u ∧ r2.json_data = jd ∧ r2.updated_at = tu ∧
      st2.records.filter (fun x => x.mac = mac) = [r2] ∧
      (∀ x ∈ st.records, x.mac ≠ mac → x ∈ st2.records) ∧
      st2.nextId = st.nextId + 1 := by
  have hup := upsertRow_present mac (some u) jd tc tu st r hmem hmac hnodup
  refine ⟨{ r with username := some u, json_data := jd, updated_at := tu },
    { records := st.records.map fun x =>
        if x.mac = mac then
          { r with username := some u, json_data := jd, updated_at := tu }
        else x,
      nextId := st.nextId + 1 },
    ?_, rfl, rfl, rfl, rfl, rfl, rfl, ?_, ?_, rfl⟩
  · rw [saveData_with_username st mac u jd tc tu hne, hup]
  · exact filter_map_const st.records mac _ hmac hnodup ⟨r, hmem, hmac⟩
  · intro x hx hxne
    exact mapIf_mem st.records mac _ x hx hxne

theorem c5_upsert_preserves_id_created_witness :
    c2rec ∈ c2store.records ∧ c2rec.mac = "aa:aa" ∧
    (c2store.records.map Record.mac).Nodup ∧ "aa:aa" ≠ "" ∧
    (∃ r2 st2,
      saveData c2store (some (.obj [("mac_address", .str "aa:aa"),
        ("username", .str "carol"), ("json_data", .num 9)])) 5 6 =
        (.ok r2, st2) ∧
      r2.id = c2rec.id ∧ r2.created_at = c2rec.created_at ∧
      r2.mac = c2rec.mac ∧ r2.username = some "carol" ∧
      r2.json_data = .num 9 ∧ r2.updated_at = 6 ∧
      st2.records.filter (fun x => x.mac = "aa:aa") = [r2] ∧
      (∀ x ∈ c2store.records, x.mac ≠ "aa:aa" → x ∈ st2.records) ∧
      st2.nextId = c2store.nextId + 1) :=
  ⟨List.mem_cons_self _ _, rfl, by simp [c2store], by simp,
    c5_upsert_preserves_id_created c2store "aa:aa" "carol" (.num 9) 5 6 c2rec
      (List.mem_cons_self _ _) rfl (by simp [c2store]) (by simp)⟩

theorem renameDevice_macs (st : Store) (mac : String) (body : Option Json)
    (now : Nat) :
    ((renameDevice st mac body now).2).records.map Record.mac =
      st.records.map Record.mac := by
  rcases body with _ | d
  · rfl
  rcases d with _ | b | n | s | xs | kvs
  case obj =>
    rcases hl : objLookup kvs "name" with _ | v
    · simp [renameDevice, hl]
    · by_cases htr : v.truthy
      · rcases ha : v.asText with _ | name
        · simp [renameDevice, hl, htr, ha]
        · rcases hrun : runRename mac name now st.records with _ | newRecs
          · simp [renameDevice, hl, htr, ha, hrun]
          · rcases hf : newRecs.find? (fun x => x.mac = mac) with _ | r2 <;>
              simp [renameDevice, hl, htr, ha, hrun, hf,
                runRename_macs mac name now st.records newRecs hrun]
      · simp [renameDevice, hl, htr]
  all_goals rfl

theorem updateDevice_macs (st : Store) (mac : String) (body : Option Json)
    (now : Nat) :
    ((updateDevice st mac body now).2).records.map Record.mac =
      st.records.map Record.mac := by
  rcases body with _ | d
  · rfl
  rcases d with _ | b | n | s | xs | kvs
  case null => rfl
  case bool => by_cases hb : b <;> simp [updateDevice, hb]
  case num => by_cases hn : n = 0 <;> simp [updateDevice, hn]
  case str =>
    by_cases hs : s = ""
    · simp [updateDevice, hs]
    · by_cases hj : strHasJsonData s <;> simp [updateDevice, hs, hj]
  case arr =>
    by_cases hx : xs.isEmpty
    · simp [updateDevice, hx]
    · by_cases hj : listHasJsonDataStr xs <;> simp [updateDevice, hx, hj]
  case obj =>
    by_cases he : kvs.isEmpty
    · simp [updateDevice, he]
    · rcases hl : objLookup kvs "json_data" with _ | jd
      · simp [updateDevice, he, hl]
      · rcases hu : usernameOf kvs with _ | username
        · simp [updateDevice, he, hl, hu]
        · have hmap := mapIf_macs st.records mac
            (fun x =>
              { x with json_data := jd, username := username, updated_at := now })
            (fun x => rfl)
          have hrec : (updateDevice st mac (some (.obj kvs)) now).2.records =
              runUpdate mac jd username now st.records := by
            simp only [updateDevice, hl, hu,
              if_neg (show ¬ kvs.isEmpty = true from he)]
            split <;> rfl
          rw [hrec, runUpdate_eq_mapIf]
          exact hmap

theorem macs_eq_absent (l l2 : List Record) (mac : String)
    (h : l2.map Record.mac = l.map Record.mac)
    (habs : ∀ x ∈ l, x.mac ≠ mac) : ∀ x ∈ l2, x.mac ≠ mac := by
  intro x hx hxm
  have hmem : x.mac ∈ l2.map Record.mac := List.mem_map_of_mem _ hx
  rw [h] at hmem
  rcases List.mem_map.mp hmem with ⟨y, hy, hym⟩
  exact habs y hy (hym.trans hxm)

/-- C7: rename (PATCH /api/data/(mac)/rename) with a valid name on an absent
MAC address returns not-found and changes nothing; replace (PUT
/devices/(mac)) on an absent key likewise returns not-found without
creating a record; and no rename, replace or delete call (with any body)
can take a key from absent to present — only create_or_update can. -/
theorem c7_absent_key_never_created (st : Store) (mac : String)
    (habs : ∀ x ∈ st.records, x.mac ≠ mac) :
    (∀ s now, s ≠ "" →
      renameDevice st mac (some (.obj [("name", .str s)])) now =
        (.notFound, st)) ∧
    (∀ jd now,
      updateDevice st mac (some (.obj [("json_data", jd)])) now =
        (.notFound, st)) ∧
    (∀ body now, ∀ x ∈ ((renameDevice st mac body now).2).records,
      x.mac ≠ mac) ∧
    (∀ body now, ∀ x ∈ ((updateDevice st mac body now).2).records,
      x.mac ≠ mac) ∧
    (∀ m2, ∀ x ∈ ((deleteDevice st m2).2).records, x.mac ≠ mac) := by
  refine ⟨?_, ?_, ?_, ?_, ?_⟩
  · intro s now hs
    have hrun : runRename mac s now st.records = some st.records :=
      runRename_all_unmatched mac s now st.records habs
    have hfind : st.records.find? (fun x => x.mac = mac) = none :=
      List.find?_eq_none.mpr (by intro x hx; simp [habs x hx])
    simp [renameDevice, objLookup, Json.truthy, Json.asText, hs, hrun, hfind]
  · intro jd now
    have hmapid : runUpdate mac jd none now st.records = st.records := by
      rw [runUpdate_eq_mapIf]
      exact mapIf_id st.records mac _ habs
    have hfind : st.records.find? (fun x => x.mac = mac) = none :=
      List.find?_eq_none.mpr (by intro x hx; simp [habs x hx])
    simp [updateDevice, objLookup, usernameOf, hmapid, hfind]
  · intro body now
    exact macs_eq_absent st.records _ mac (renameDevice_macs st mac body now)
      habs
  · intro body now
    exact macs_eq_absent st.records _ mac (updateDevice_macs st mac body now)
      habs
  · intro m2 x hx hxm
    have := List.of_mem_filter hx
    exact habs x (List.mem_of_mem_filter hx) hxm

theorem c7_absent_key_never_created_witness :
    (∀ x ∈ c2store.records, Record.mac x ≠ "zz") ∧
    (∀ s now, s ≠ "" →
      renameDevice c2store "zz" (some (.obj [("name", .str s)])) now =
        (.notFound, c2store)) :=
  ⟨by simp [c2store, c2rec],
    (c7_absent_key_never_created c2store "zz"
      (by simp [c2store, c2rec])).1⟩

theorem renameDevice_valid_body (st : Store) (mac s : String) (now : Nat)
    (hs : s ≠ "") :
    renameDevice st mac (some (.obj [("name", .str s)])) now =
      match runRename mac s now st.records with
      | none => (.serverError, st)
      | some newRecs =>
        match newRecs.find? (fun x => x.mac = mac) with
        | some r2 => (.ok r2, { st with records := newRecs })
        | none => (.notFound, { st with records := newRecs }) := by
  simp [renameDevice, objLookup, Json.truthy, Json.asText, hs]

/-- The record used to exhibit C1 concretely: json_data is the object
with the single key "temp" mapped to 5. -/
def c1rec : Record :=
  { id := 3, mac := "11:22", username := none,
    json_data := .obj [("temp", .num 5)], created_at := 2, updated_at := 2 }

/-- A one-row table holding `c1rec`. -/
def c1store : Store := { records := [c1rec], nextId := 4 }

/-- C1: renaming a record whose json_data is ("temp": 5) with name "Alice"
(or any non-empty name s) produces json_data
("temp": 5, "user": ("provided_username": s)) and username s; and in
general, whenever rename succeeds, every top-level key of json_data other
than "user" and every key under "user" other than "provided_username" keeps
its exact prior value. -/
theorem c1_rename_merges_and_preserves (st : Store) (mac s : String)
    (now : Nat) (r : Record) (hmem : r ∈ st.records) (hmac : r.mac = mac)
    (hnodup : (st.records.map Record.mac).Nodup) (hs : s ≠ "") :
    (∀ r2 st2,
      renameDevice st mac (some (.obj [("name", .str s)])) now =
        (.ok r2, st2) →
      r2.username = some s ∧
      (∀ k, k ≠ "user" → jGetTop r2.json_data k = jGetTop r.json_data k) ∧
      (∀ k, k ≠ "provided_username" →
        jGet2 r2.json_data "user" k = jGet2 r.json_data "user" k)) ∧
    (r.json_data = .obj [("temp", .num 5)] →
      ∃ st2, renameDevice st mac (some (.obj [("name", .str s)])) now =
        (.ok { r with username := some s,
                      json_data := .obj [("temp", .num 5),
                        ("user", .obj [("provided_username", .str s)])],
                      updated_at := now },
         st2)) := by
  constructor
  · intro r2 st2 hrun
    rw [renameDevice_valid_body st mac s now hs] at hrun
    rcases hr : runRename mac s now st.records with _ | newRecs <;>
      simp only [hr] at hrun
    · simp at hrun
    · rcases hf : newRecs.find? (fun x => x.mac = mac) with _ | rr <;>
        simp only [hf] at hrun
      · simp at hrun
      · obtain ⟨j2, hj, hfind, _⟩ :=
          runRename_find mac s now st.records newRecs r hr hmem hmac hnodup
        rw [hf] at hfind
        have hrr : rr =
            { r with username := some s, json_data := j2, updated_at := now } :=
          Option.some.inj hfind
        have hr2 : r2 = rr := by
          have h1 := (Prod.mk.injEq _ _ _ _).mp hrun
          exact (RenameRes.ok.inj h1.1).symm
        subst hr2
        subst hrr
        refine ⟨rfl, ?_, ?_⟩
        · exact jsonbSetForRename_top r.json_data j2 s hj
        · exact jsonbSetForRename_user r.json_data j2 s hj
  · intro hjd
    have hj : jsonbSetForRename r.json_data s =
        some (.obj [("temp", .num 5),
          ("user", .obj [("provided_username", .str s)])]) := by
      rw [hjd]
      rfl
    have hsome : (runRename mac s now st.records).isSome := by
      apply runRename_isSome
      intro x hx hxm
      rw [unique_mac st.records r mac hmem hmac hnodup x hx hxm, hj]
      rfl
    obtain ⟨newRecs, hr⟩ := Option.isSome_iff_exists.mp hsome
    obtain ⟨j2, hj2, hfind, _⟩ :=
      runRename_find mac s now st.records newRecs r hr hmem hmac hnodup
    have hjlit : j2 = .obj [("temp", .num 5),
        ("user", .obj [("provided_username", .str s)])] := by
      rw [hj2] at hj
      exact Option.some.inj hj
    subst hjlit
    refine ⟨{ st with records := newRecs }, ?_⟩
    rw [renameDevice_valid_body st mac s now hs]
    simp only [hr, hfind]

theorem c1_rename_merges_and_preserves_witness :
    c1rec ∈ c1store.records ∧ c1rec.mac = "11:22" ∧
    (c1store.records.map Record.mac).Nodup ∧ "Alice" ≠ "" ∧
    c1rec.json_data = .obj [("temp", .num 5)] ∧
    (∃ st2, renameDevice c1store "11:22"
        (some (.obj [("name", .str "Alice")])) 9 =
        (.ok { c1rec with username := some "Alice",
                          json_data := .obj [("temp", .num 5),
                            ("user", .obj [("provided_username", .str "Alice")])],
                          updated_at := 9 },
         st2)) :=
  ⟨List.mem_cons_self _ _, rfl, by simp [c1store], by simp, rfl,
    (c1_rename_merges_and_preserves c1store "11:22" "Alice" 9 c1rec
      (List.mem_cons_self _ _) rfl (by simp [c1store]) (by simp)).2 rfl⟩

theorem c6_delete_iff_existed_witness :
    ((deleteDevice c2store "aa:aa").1 = true ↔
      ∃ r ∈ c2store.records, r.mac = "aa:aa") ∧
    (∀ x ∈ (getData (deleteDevice c2store "aa:aa").2).1.data,
      x.mac ≠ "aa:aa") ∧
    ((deleteDevice c2store "aa:aa").1 = false →
      (deleteDevice c2store "aa:aa").2 = c2store) :=
  c6_delete_iff_existed c2store "aa:aa"

theorem c9_list_all_ordered_complete_witness :
    List.Perm (getData c1store).1.data c1store.records ∧
    ((getData c1store).1.data.Sorted fun a b => b.created_at ≤ a.created_at) ∧
    (getData c1store).2 = c1store :=
  c9_list_all_ordered_complete c1store

theorem c10_count_matches_data_witness :
    (getData c1store).1.count = (getData c1store).1.data.length :=
  c10_count_matches_data c1store

end SysSpec
